import Mathlib

/-!
Shallow embedding of the `ecnepsnai/cron` Go package and proofs about its
pattern validator, pattern compiler, time matcher and scheduler records.

Go strings are modelled as `List Char`.  The standard-library helpers the
package uses (`strings.Split` with a one-character separator,
`strings.ContainsRune`, `strings.ToUpper`, `strconv.Atoi`,
`fmt.Sprintf "%d"`) are embedded below with the same observable behaviour
on the inputs the package passes them.  Go's `%` is truncated remainder
(`Int.tmod`); a Go division/remainder by zero is a runtime panic, which the
embedding represents by `Option.none`.
-/

namespace Cron

/-- Go strings, modelled as lists of characters. -/
abbrev GoStr := List Char

/-- Convert a Lean string literal to the Go string model. -/
def str (s : String) : GoStr := s.data

/-- Embedding of `strings.ContainsRune`. -/
def containsRune : GoStr → Char → Bool
  | [], _ => false
  | x :: rest, c => x == c || containsRune rest c

/-- Embedding of `strings.Split` for a one-character separator: splits at
every occurrence of the separator; `Split("", sep)` is `[""]`. -/
def splitOnChar (sep : Char) : GoStr → List GoStr
  | [] => [[]]
  | c :: rest =>
    let r := splitOnChar sep rest
    if c == sep then [] :: r
    else
      match r with
      | [] => [[c]]
      | h :: t => (c :: h) :: t

/-- Numeric value of an ASCII digit character, `none` for anything else. -/
def digitVal (c : Char) : Option Nat :=
  if '0' ≤ c ∧ c ≤ '9' then some (c.toNat - '0'.toNat) else none

/-- ASCII digit character for a value below ten. -/
def digitChar : Nat → Char
  | 0 => '0'
  | 1 => '1'
  | 2 => '2'
  | 3 => '3'
  | 4 => '4'
  | 5 => '5'
  | 6 => '6'
  | 7 => '7'
  | 8 => '8'
  | 9 => '9'
  | _ => '?'

/-- Accumulating decimal parser over a character list: consumes digits,
failing on the first non-digit. -/
def parseDigitsAux : GoStr → Nat → Option Nat
  | [], acc => some acc
  | c :: rest, acc =>
    match digitVal c with
    | some d => parseDigitsAux rest (acc * 10 + d)
    | none => none

/-- Parse a non-empty all-digit string. -/
def parseDigits (s : GoStr) : Option Nat :=
  parseDigitsAux s 0

/-- Embedding of `strconv.Atoi`: an optional sign followed by at least one
ASCII digit.  (Overflow clamping of 64-bit `ParseInt` is not modelled; every
value the package ever accepts is tiny, and a string that only fails by
overflow is out of every field's domain anyway.) -/
def atoi (s : GoStr) : Option Int :=
  match s with
  | [] => none
  | c :: rest =>
    if c = '+' then
      if rest = [] then none else (parseDigits rest).map Int.ofNat
    else if c = '-' then
      if rest = [] then none else (parseDigits rest).map (fun n => -Int.ofNat n)
    else
      (parseDigits (c :: rest)).map Int.ofNat

/-- Little-endian decimal digits of a natural number, with explicit fuel so
that the definition reduces in the kernel.  Correct whenever `n < fuel`. -/
def natDigitsRevAux : Nat → Nat → List Nat
  | _, 0 => []
  | n, fuel + 1 => if n < 10 then [n] else n % 10 :: natDigitsRevAux (n / 10) fuel

/-- Decimal rendering of a natural number, most significant digit first. -/
def natToString (n : Nat) : GoStr :=
  ((natDigitsRevAux n (n + 1)).reverse).map digitChar

/-- Embedding of the package's `toString`, i.e. `fmt.Sprintf("%d", i)`. -/
def intToString (i : Int) : GoStr :=
  if i < 0 then '-' :: natToString i.natAbs else natToString i.toNat

/-- Embedding of `strings.ToUpper` restricted to ASCII, which is all the
package ever feeds it. -/
def goUpperChar (c : Char) : Char :=
  if 'a' ≤ c ∧ c ≤ 'z' then Char.ofNat (c.toNat - 32) else c

/-- Uppercase an entire Go string. -/
def toUpperGo (s : GoStr) : GoStr := s.map goUpperChar

/-! The validator (`Validate` and its helpers), embedded from the source. -/

/-- Validation errors.  The Go code builds them with `fmt.Errorf`; each
constructor below corresponds to one distinct format string, carrying the
unit name that is interpolated into it.  The `Parse` variants are the ones
whose message additionally embeds a `strconv.Atoi` error.  Note that the
domain failure of `validateRange` really does produce the "expression"
message in the source; that is mirrored here. -/
inductive VErr where
  /-- "Invalid number of date components" -/
  | count : VErr
  /-- "Invalid (unit) expression" -/
  | expr (unit : String) : VErr
  /-- "Invalid (unit) expression: (atoi error)" -/
  | exprParse (unit : String) : VErr
  /-- "Invalid (unit) range" -/
  | range (unit : String) : VErr
  /-- "Invalid (unit) range: (atoi error)" -/
  | rangeParse (unit : String) : VErr
  /-- "Invalid (unit) list" -/
  | list (unit : String) : VErr
  /-- "Invalid (unit) list: (atoi error)" -/
  | listParse (unit : String) : VErr
  /-- "Invalid (unit) value" -/
  | value (unit : String) : VErr
  /-- "Invalid (unit) value: (atoi error)" -/
  | valueParse (unit : String) : VErr
deriving DecidableEq, Repr

/-- The `dateUnits` slice from `Validate`, including the source's
"day on month" typo. -/
def dateUnits : List String :=
  ["minute", "hour", "day on month", "month", "day of week"]

/-- Embedding of `validateMinute`. -/
def validateMinute (v : Int) : Bool := v ≥ 0 && v ≤ 60

/-- Embedding of `validateHour`. -/
def validateHour (v : Int) : Bool := v ≥ 0 && v ≤ 24

/-- Embedding of `validateDayOfMonth`. -/
def validateDayOfMonth (v : Int) : Bool := v ≥ 1 && v ≤ 31

/-- Embedding of `validateMonth`. -/
def validateMonth (v : Int) : Bool := v ≥ 1 && v ≤ 12

/-- Embedding of `validateDayOfWeek`. -/
def validateDayOfWeek (v : Int) : Bool := v ≥ 0 && v ≤ 6

/-- Embedding of `validateDateComponent`. -/
def validateDateComponent (v : Int) (unit : Nat) : Bool :=
  match unit with
  | 0 => validateMinute v
  | 1 => validateHour v
  | 2 => validateDayOfMonth v
  | 3 => validateMonth v
  | 4 => validateDayOfWeek v
  | _ => false

/-- Is `c` an uppercase ASCII letter. -/
def isUpperAZ (c : Char) : Bool := 'A' ≤ c && c ≤ 'Z'

/-- Embedding of `alphabeticalPattern.MatchString` where the regexp is
`[A-Z]{3}`: `MatchString` is unanchored, so this holds iff the string
contains three consecutive uppercase ASCII letters anywhere. -/
def alphabeticalMatch : GoStr → Bool
  | a :: b :: c :: rest =>
    (isUpperAZ a && isUpperAZ b && isUpperAZ c) || alphabeticalMatch (b :: c :: rest)
  | _ => false

/-- Association-list lookup standing in for a Go `map[string]string` read. -/
def lookupTable : List (GoStr × GoStr) → GoStr → Option GoStr
  | [], _ => none
  | (k, val) :: rest, key => if key = k then some val else lookupTable rest key

/-- The `monthMap` table. -/
def monthMap : List (GoStr × GoStr) :=
  [(str "JAN", str "1"), (str "FEB", str "2"), (str "MAR", str "3"),
   (str "APR", str "4"), (str "MAY", str "5"), (str "JUN", str "6"),
   (str "JUL", str "7"), (str "AUG", str "8"), (str "SEP", str "9"),
   (str "OCT", str "10"), (str "NOV", str "11"), (str "DEC", str "12")]

/-- The `weekdayMap` table. -/
def weekdayMap : List (GoStr × GoStr) :=
  [(str "SUN", str "0"), (str "MON", str "1"), (str "TUE", str "2"),
   (str "WED", str "3"), (str "THU", str "4"), (str "FRI", str "5"),
   (str "SAT", str "6")]

/-- Embedding of `validateExpression`.  Only called on components containing
a slash, so the split has at least two parts and the Go index `parts[1]`
cannot fault; `getD` is exact there. -/
def validateExpression (component : GoStr) (unit : String) (i : Nat) : Option VErr :=
  let parts := splitOnChar '/' component
  if parts.length > 2 then some (.expr unit)
  else
    match atoi (parts.getD 1 []) with
    | none => some (.exprParse unit)
    | some value =>
      if !validateDateComponent value i then some (.expr unit) else none

/-- Embedding of `validateRange`.  Only called on components containing a
dash, so the split has at least two parts.  The domain failure returns the
"expression" message, exactly as the source does. -/
def validateRange (component : GoStr) (unit : String) (i : Nat) : Option VErr :=
  let parts := splitOnChar '-' component
  if parts.length > 2 then some (.range unit)
  else
    match atoi (parts.getD 0 []) with
    | none => some (.rangeParse unit)
    | some left =>
      match atoi (parts.getD 1 []) with
      | none => some (.rangeParse unit)
      | some right =>
        if left > right || left == right then some (.range unit)
        else if !validateDateComponent left i || !validateDateComponent right i then
          some (.expr unit)
        else none

/-- The loop body of `validateList` over the comma-separated parts. -/
def validateListParts : List GoStr → String → Nat → Option VErr
  | [], _, _ => none
  | part :: rest, unit, i =>
    match atoi part with
    | none => some (.listParse unit)
    | some value =>
      if !validateDateComponent value i then some (.list unit)
      else validateListParts rest unit i

/-- Embedding of `validateList`. -/
def validateList (component : GoStr) (unit : String) (i : Nat) : Option VErr :=
  validateListParts (splitOnChar ',' component) unit i

/-- Embedding of `validateName`. -/
def validateName (component : GoStr) (unit : String) (i : Nat) : Option VErr :=
  if i = 3 then
    if (lookupTable monthMap component).isSome then none else some (.value unit)
  else if i = 4 then
    if (lookupTable weekdayMap component).isSome then none else some (.value unit)
  else some (.value unit)

/-- One iteration of the component loop in `Validate`: dispatch a single
component at index `i` to the branch its distinguishing character selects. -/
def validateComponent (component : GoStr) (i : Nat) : Option VErr :=
  if component = str "*" then none
  else
    let unit := dateUnits.getD i ""
    if containsRune component '/' then validateExpression component unit i
    else if containsRune component '-' then validateRange component unit i
    else if containsRune component ',' then validateList component unit i
    else if alphabeticalMatch component then validateName component unit i
    else
      match atoi component with
      | none => some (.valueParse unit)
      | some v => if !validateDateComponent v i then some (.value unit) else none

/-- The component loop of `Validate`, returning the first error. -/
def validateComponents : List GoStr → Nat → Option VErr
  | [], _ => none
  | c :: rest, i =>
    match validateComponent c i with
    | some e => some e
    | none => validateComponents rest (i + 1)

/-- Embedding of `Job.Validate` (the version with named-value support,
which is the one compiled together with `getRealPattern`). -/
def Validate (pattern : GoStr) : Option VErr :=
  if pattern = str "* * * * *" then none
  else
    let components := splitOnChar ' ' pattern
    if components.length ≠ 5 then some .count
    else validateComponents components 0

/-! The compiler (`getRealPattern`) and matcher (`isItTime`,
`patternDoesMatch`), embedded from the source. -/

/-- Embedding of `getRealPattern`.  The Go code indexes `components[0..4]`
directly and panics on fewer than five components; `getD` stands in for the
index, exact on every validated pattern (which always has five).  A failed
map lookup yields Go's zero value `""`, which `getD ""` of `lookupTable`
reproduces. -/
def getRealPattern (pattern : GoStr) : List GoStr :=
  if pattern = str "* * * * *" then
    [str "*", str "*", str "*", str "*", str "*"]
  else
    let components := splitOnChar ' ' (toUpperGo pattern)
    let minute := components.getD 0 []
    let hour := components.getD 1 []
    let dayOfMonth := components.getD 2 []
    let month0 := components.getD 3 []
    let dayOfWeek0 := components.getD 4 []
    let month := if alphabeticalMatch month0 then (lookupTable monthMap month0).getD [] else month0
    let dayOfWeek :=
      if alphabeticalMatch dayOfWeek0 then (lookupTable weekdayMap dayOfWeek0).getD [] else dayOfWeek0
    [minute, hour, dayOfMonth, month, dayOfWeek]

/-- The loop body of `isItTime`'s comma branch: `Atoi` errors are ignored
and leave the Go zero value `0`, exactly as in the source. -/
def listMatch : List GoStr → Int → Bool
  | [], _ => false
  | part :: rest, currentValue =>
    if (atoi part).getD 0 == currentValue then true else listMatch rest currentValue

/-- Embedding of `isItTime`.  `none` models a Go runtime panic: the slash
branch computes `currentValue % divideBy`, which panics when the divisor is
zero.  `Atoi` errors are discarded (`_`), leaving the zero value `0`. -/
def isItTime (dateComponent : GoStr) (currentValue : Int) : Option Bool :=
  if containsRune dateComponent '/' then
    let divideBy := (atoi ((splitOnChar '/' dateComponent).getD 1 [])).getD 0
    if divideBy = 0 then none
    else some (Int.tmod currentValue divideBy == 0)
  else if containsRune dateComponent '-' then
    let parts := splitOnChar '-' dateComponent
    let start := (atoi (parts.getD 0 [])).getD 0
    let stop := (atoi (parts.getD 1 [])).getD 0
    some (currentValue ≥ start && currentValue ≤ stop)
  else if containsRune dateComponent ',' then
    some (listMatch (splitOnChar ',' dateComponent) currentValue)
  else
    some (dateComponent == intToString currentValue || dateComponent == str "*")

/-- The five projections of a `time.Time` that the matcher reads:
`Minute()`, `Hour()`, `Day()`, `int(Month())` (1-based), and
`int(Weekday())` (0 = Sunday). -/
structure GoTime where
  minute : Int
  hour : Int
  day : Int
  month : Int
  weekday : Int
deriving DecidableEq, Repr

/-- Embedding of `patternDoesMatch`.  The Go code indexes `pattern[0..4]`
(panicking on shorter slices, modelled by `none` via the optional lookups)
and evaluates all five `isItTime` calls up front; a panic in any of them
(`none`) propagates. -/
def patternDoesMatch (pattern : List GoStr) (clock : GoTime) : Option Bool := do
  let minute ← pattern[0]?
  let hour ← pattern[1]?
  let dayOfMonth ← pattern[2]?
  let month ← pattern[3]?
  let dayOfWeek ← pattern[4]?
  let minuteMatch ← isItTime minute clock.minute
  let hourMatch ← isItTime hour clock.hour
  let dayOfMonthMatch ← isItTime dayOfMonth clock.day
  let monthMatch ← isItTime month clock.month
  let dayOfWeekMatch ← isItTime dayOfWeek clock.weekday
  let dowIsStar := dayOfWeek == str "*"
  let domIsStar := dayOfMonth == str "*"
  let dateOfMatch :=
    if !dowIsStar && !domIsStar then dayOfMonthMatch || dayOfWeekMatch
    else dayOfMonthMatch && dayOfWeekMatch
  return (minuteMatch && hourMatch && monthMatch) && dateOfMatch

/-! The scheduler records (`Job`, `Tab`), `New`, `WouldRunNow`,
`StopSoon` and the expiry check of `ForceStart`. -/

/-- Embedding of `Job`.  `compiled` is the unexported `pattern []string`
field (`none` = Go `nil`).  The opaque work function `Exec` plays no role in
validation, registration or matching and is not modelled. -/
structure Job where
  Pattern : GoStr
  Name : String
  compiled : Option (List GoStr) := none
deriving DecidableEq, Repr

/-- Embedding of `Tab`.  Wall-clock instants on this side of the API
(`ExpireAfter`, the argument of `StopSoon`) are modelled as epoch seconds;
`Interval` is a duration in seconds (Go default `60 * time.Second`). -/
structure Tab where
  Jobs : List Job
  ExpireAfter : Option Int
  Interval : Int
deriving DecidableEq, Repr

/-- The validation loop of `New`: the first error, if any.  The Go loop
also executes `job.pattern = getRealPattern(job.Pattern)`, but `job` is the
range-loop variable — a copy of the slice element — so that assignment is
lost and the `Jobs` slice is returned exactly as supplied, `pattern` fields
included.  The embedding therefore (faithfully) discards the compiled
pattern. -/
def firstValidationError : List Job → Option VErr
  | [] => none
  | job :: rest =>
    match Validate job.Pattern with
    | some e => some e
    | none => firstValidationError rest

/-- Embedding of `New`.  `Except.error` models the `nil, err` return,
`Except.ok` the `&Tab{...}, nil` return. -/
def New (jobs : List Job) : Except VErr Tab :=
  match firstValidationError jobs with
  | some e => .error e
  | none => .ok { Jobs := jobs, Interval := 60, ExpireAfter := none }

/-- Embedding of `Job.WouldRunNow` (with the instant made explicit): the
literal `"* * * * *"` fast path returns `true`; otherwise a `nil` compiled
pattern is recomputed on the spot and matched. -/
def WouldRunNow (job : Job) (now : GoTime) : Option Bool :=
  if job.Pattern = str "* * * * *" then some true
  else
    match job.compiled with
    | some p => patternDoesMatch p now
    | none => patternDoesMatch (getRealPattern job.Pattern) now

/-- Modelled from the spec: Go's `time.Now().AddDate(-1, 0, 0)` — the
instant one calendar year before `now` — is abstracted, on the epoch-seconds
side of the time model, as subtracting a fixed positive year duration
(365 days of seconds); the only property the code relies on is that the
result lies strictly in the past. -/
def oneYearSeconds : Int := 31536000

/-- Embedding of `Tab.StopSoon`, with the current instant explicit. -/
def StopSoon (s : Tab) (now : Int) : Tab :=
  { s with ExpireAfter := some (now - oneYearSeconds) }

/-- The expiry check at the top of each `ForceStart` iteration:
`s.ExpireAfter != nil && time.Since(*s.ExpireAfter).Seconds() > 0`, where
`time.Since(e)` at instant `now` is `now - e`.  `true` means the loop
returns. -/
def forceStartExits (s : Tab) (now : Int) : Bool :=
  match s.ExpireAfter with
  | none => false
  | some e => now - e > 0

/-- Join a list of strings with commas; the inverse of `splitOnChar ','`
used to quantify over list-shaped field components. -/
def joinComma : List GoStr → GoStr
  | [] => []
  | [p] => p
  | p :: q :: rest => p ++ ',' :: joinComma (q :: rest)

/-- A concrete job with a valid non-wildcard pattern and `nil` compiled
field, as produced by a caller of `New`. -/
def jobJan : Job := { Pattern := str "0 0 1 JAN *", Name := "jan", compiled := none }

/-- A concrete job with the wildcard pattern. -/
def jobStar : Job := { Pattern := str "* * * * *", Name := "star", compiled := none }

/-- A concrete job with a malformed pattern, as in the `New` error test. -/
def jobBad : Job := { Pattern := str "????", Name := "bad", compiled := none }

/-! Helper lemmas about the embedded string primitives. -/

theorem containsRune_append (xs ys : GoStr) (c : Char) :
    containsRune (xs ++ ys) c = (containsRune xs c || containsRune ys c) := by
  induction xs with
  | nil => simp [containsRune]
  | cons x rest ih => simp [containsRune, ih, Bool.or_assoc]

theorem containsRune_eq_false_of_forall {s : GoStr} {c : Char}
    (h : ∀ x ∈ s, x ≠ c) : containsRune s c = false := by
  induction s with
  | nil => rfl
  | cons x rest ih =>
    simp only [containsRune, Bool.or_eq_false_iff]
    constructor
    · exact beq_eq_false_iff_ne.mpr (h x (List.mem_cons_self x rest))
    · exact ih fun y hy => h y (List.mem_cons_of_mem x hy)

theorem mem_of_containsRune_eq_false {s : GoStr} {c : Char}
    (h : containsRune s c = false) : ∀ x ∈ s, x ≠ c := by
  induction s with
  | nil => intro x hx; simp at hx
  | cons y rest ih =>
    simp only [containsRune, Bool.or_eq_false_iff] at h
    intro x hx
    rcases List.mem_cons.mp hx with rfl | hx2
    · exact beq_eq_false_iff_ne.mp h.1
    · exact ih h.2 x hx2

theorem splitOnChar_of_not_contains {sep : Char} {s : GoStr}
    (h : containsRune s sep = false) : splitOnChar sep s = [s] := by
  induction s with
  | nil => rfl
  | cons c rest ih =>
    simp only [containsRune, Bool.or_eq_false_iff] at h
    rw [splitOnChar]
    simp only [h.1, ih h.2]
    simp

theorem splitOnChar_append {sep : Char} {xs : GoStr} (ys : GoStr)
    (h : containsRune xs sep = false) :
    splitOnChar sep (xs ++ sep :: ys) = xs :: splitOnChar sep ys := by
  induction xs with
  | nil =>
    rw [List.nil_append, splitOnChar]
    simp
  | cons x rest ih =>
    simp only [containsRune, Bool.or_eq_false_iff] at h
    rw [List.cons_append, splitOnChar]
    simp only [h.1, ih h.2]
    simp

theorem splitOnChar_ne_nil (sep : Char) (s : GoStr) : splitOnChar sep s ≠ [] := by
  induction s with
  | nil => simp [splitOnChar]
  | cons c rest ih =>
    rw [splitOnChar]
    by_cases h : c == sep
    · simp [h]
    · simp only [h]
      cases hr : splitOnChar sep rest with
      | nil => exact absurd hr ih
      | cons a t => simp

theorem splitOnChar_length_ge_two {sep : Char} {s : GoStr}
    (h : containsRune s sep = true) : 2 ≤ (splitOnChar sep s).length := by
  induction s with
  | nil => simp [containsRune] at h
  | cons c rest ih =>
    rw [splitOnChar]
    by_cases hc : c == sep
    · simp only [hc, if_true, List.length_cons]
      have := List.length_pos.mpr (splitOnChar_ne_nil sep rest)
      omega
    · simp only [containsRune, hc, Bool.false_or] at h
      simp only [hc, if_false]
      have h2 := ih h
      cases hr : splitOnChar sep rest with
      | nil => exact absurd hr (splitOnChar_ne_nil sep rest)
      | cons a t =>
        rw [hr] at h2
        simpa using h2

theorem alphabeticalMatch_eq_false (s : GoStr)
    (h : ∀ x ∈ s, isUpperAZ x = false) : alphabeticalMatch s = false := by
  match s with
  | [] => rfl
  | [a] => rfl
  | [a, b] => rfl
  | a :: b :: c :: rest =>
    rw [alphabeticalMatch]
    have ha := h a (by simp)
    have hrec := alphabeticalMatch_eq_false (b :: c :: rest)
      (fun x hx => h x (List.mem_cons_of_mem a hx))
    simp [ha, hrec]

/-! Helper lemmas about decimal printing and parsing. -/

theorem digitVal_digitChar {d : Nat} (h : d < 10) : digitVal (digitChar d) = some d := by
  interval_cases d <;> decide

theorem digitChar_ne {d : Nat} (h : d < 10) (c : Char)
    (hc : c = '/' ∨ c = '-' ∨ c = ',' ∨ c = '*' ∨ c = '+') : digitChar d ≠ c := by
  rcases hc with rfl | rfl | rfl | rfl | rfl <;> (interval_cases d <;> decide)

theorem isUpperAZ_digitChar {d : Nat} (h : d < 10) : isUpperAZ (digitChar d) = false := by
  interval_cases d <;> decide

theorem parseDigitsAux_append (xs ys : GoStr) (acc : Nat) :
    parseDigitsAux (xs ++ ys) acc =
      (parseDigitsAux xs acc).bind (fun a => parseDigitsAux ys a) := by
  induction xs generalizing acc with
  | nil => simp [parseDigitsAux]
  | cons c rest ih =>
    rw [List.cons_append, parseDigitsAux, parseDigitsAux]
    cases digitVal c with
    | none => rfl
    | some d => exact ih (acc * 10 + d)

theorem natDigitsRevAux_mem_lt {fuel n : Nat} (h : n < fuel) :
    ∀ d ∈ natDigitsRevAux n fuel, d < 10 := by
  induction fuel generalizing n with
  | zero => omega
  | succ f ih =>
    intro d hd
    rw [natDigitsRevAux] at hd
    by_cases h10 : n < 10
    · simp only [h10, if_true, List.mem_singleton] at hd
      omega
    · simp only [h10, if_false, List.mem_cons] at hd
      rcases hd with rfl | hd2
      · exact Nat.mod_lt n (by omega)
      · have hlt : n / 10 < f := by
          have := Nat.div_lt_self (show 0 < n by omega) (show 1 < 10 by omega)
          omega
        exact ih hlt d hd2

theorem natDigitsRevAux_ne_nil {fuel n : Nat} (h : n < fuel) :
    natDigitsRevAux n fuel ≠ [] := by
  cases fuel with
  | zero => omega
  | succ f =>
    rw [natDigitsRevAux]
    by_cases h10 : n < 10 <;> simp [h10]

theorem parseDigitsAux_natDigits {fuel : Nat} :
    ∀ n acc, n < fuel →
      parseDigitsAux (((natDigitsRevAux n fuel).reverse).map digitChar) acc
        = some (acc * 10 ^ (natDigitsRevAux n fuel).length + n) := by
  induction fuel with
  | zero => intro n acc h; omega
  | succ f ih =>
    intro n acc h
    by_cases h10 : n < 10
    · rw [natDigitsRevAux]
      simp only [h10, if_true, List.reverse_singleton, List.map_cons, List.map_nil,
        List.length_singleton]
      rw [parseDigitsAux, digitVal_digitChar h10]
      simp [parseDigitsAux]
    · have hlt : n / 10 < f := by
        have := Nat.div_lt_self (show 0 < n by omega) (show 1 < 10 by omega)
        omega
      rw [natDigitsRevAux]
      simp only [h10, if_false, List.reverse_cons, List.map_append, List.map_cons,
        List.map_nil, List.length_cons]
      rw [parseDigitsAux_append, ih (n / 10) acc hlt, Option.some_bind]
      simp only [parseDigitsAux, digitVal_digitChar (Nat.mod_lt n (by omega))]
      congr 1
      have hmod := Nat.div_add_mod n 10
      set L := (natDigitsRevAux (n / 10) f).length with hL
      calc (acc * 10 ^ L + n / 10) * 10 + n % 10
          = acc * (10 ^ L * 10) + (10 * (n / 10) + n % 10) := by ring
        _ = acc * 10 ^ (L + 1) + n := by rw [pow_succ, hmod]

theorem natToString_chars {n : Nat} :
    ∀ c ∈ natToString n, ∃ d, d < 10 ∧ c = digitChar d := by
  intro c hc
  rw [natToString] at hc
  rcases List.mem_map.mp hc with ⟨d, hd, rfl⟩
  rw [List.mem_reverse] at hd
  exact ⟨d, natDigitsRevAux_mem_lt (Nat.lt_succ_self n) d hd, rfl⟩

theorem natToString_ne_nil (n : Nat) : natToString n ≠ [] := by
  rw [natToString]
  intro h
  rw [List.map_eq_nil_iff, List.reverse_eq_nil_iff] at h
  exact natDigitsRevAux_ne_nil (Nat.lt_succ_self n) h

theorem parseDigits_natToString (n : Nat) : parseDigits (natToString n) = some n := by
  rw [parseDigits, natToString, parseDigitsAux_natDigits n 0 (Nat.lt_succ_self n)]
  simp

theorem atoi_natToString (n : Nat) : atoi (natToString n) = some (n : Int) := by
  obtain ⟨c, rest, hcr⟩ := List.exists_cons_of_ne_nil (natToString_ne_nil n)
  have hcmem : c ∈ natToString n := by rw [hcr]; exact List.mem_cons_self c rest
  obtain ⟨d, hd, rfl⟩ := natToString_chars c hcmem
  rw [hcr, atoi]
  rw [if_neg (digitChar_ne hd '+' (by simp))]
  rw [if_neg (digitChar_ne hd '-' (by simp))]
  rw [← hcr, parseDigits_natToString]
  rfl

theorem atoi_intToString (i : Int) : atoi (intToString i) = some i := by
  rw [intToString]
  by_cases hneg : i < 0
  · rw [if_pos hneg]
    rw [atoi]
    rw [if_neg (by decide), if_pos rfl]
    rw [if_neg (natToString_ne_nil i.natAbs)]
    rw [parseDigits_natToString]
    simp only [Option.map_some']
    congr 1
    rw [Int.ofNat_eq_coe]
    omega
  · rw [if_neg hneg]
    rw [atoi_natToString]
    congr 1
    omega

theorem intToString_inj {a b : Int} (h : intToString a = intToString b) : a = b := by
  have ha := atoi_intToString a
  have hb := atoi_intToString b
  rw [h, hb] at ha
  exact (Option.some_inj.mp ha).symm

theorem natToString_not_contains (n : Nat) (c : Char)
    (hc : c = '/' ∨ c = '-' ∨ c = ',' ∨ c = '*' ∨ c = '+') :
    containsRune (natToString n) c = false := by
  refine containsRune_eq_false_of_forall ?_
  intro x hx
  obtain ⟨d, hd, rfl⟩ := natToString_chars x hx
  exact digitChar_ne hd c hc

theorem intToString_of_nonneg {i : Int} (h : 0 ≤ i) :
    intToString i = natToString i.toNat := by
  rw [intToString, if_neg (by omega)]

theorem intToString_not_contains {i : Int} (hi : 0 ≤ i) (c : Char)
    (hc : c = '/' ∨ c = '-' ∨ c = ',' ∨ c = '*' ∨ c = '+') :
    containsRune (intToString i) c = false := by
  rw [intToString_of_nonneg hi]
  exact natToString_not_contains i.toNat c hc

theorem natToString_ne_star (n : Nat) : natToString n ≠ str "*" := by
  intro h
  have hmem : '*' ∈ natToString n := by rw [h]; simp [str]
  obtain ⟨d, hd, hdc⟩ := natToString_chars '*' hmem
  exact digitChar_ne hd '*' (by simp) hdc.symm

theorem intToString_ne_star (i : Int) : intToString i ≠ str "*" := by
  by_cases h : i < 0
  · rw [intToString, if_pos h]
    intro hEq
    have h2 : '-' = '*' := by
      have h3 := congrArg (fun l => l.headI) hEq
      simp [str] at h3
    exact absurd h2 (by decide)
  · rw [intToString, if_neg h]
    exact natToString_ne_star i.toNat

theorem alphabeticalMatch_natToString (n : Nat) :
    alphabeticalMatch (natToString n) = false := by
  refine alphabeticalMatch_eq_false _ ?_
  intro x hx
  obtain ⟨d, hd, rfl⟩ := natToString_chars x hx
  exact isUpperAZ_digitChar hd

/-! Helper lemmas about the individual branches of `isItTime`. -/

theorem isItTime_star (v : Int) : isItTime (str "*") v = some true := by
  rw [isItTime]
  have h1 : containsRune (str "*") '/' = false := by decide
  have h2 : containsRune (str "*") '-' = false := by decide
  have h3 : containsRune (str "*") ',' = false := by decide
  simp [h1, h2, h3]

theorem isItTime_exact {n : Int} (hn : 0 ≤ n) (v : Int) :
    isItTime (intToString n) v = some (decide (v = n)) := by
  rw [isItTime]
  simp only [intToString_not_contains hn '/' (by simp),
    intToString_not_contains hn '-' (by simp),
    intToString_not_contains hn ',' (by simp),
    Bool.false_eq_true, if_false]
  congr 1
  by_cases hv : v = n
  · subst hv
    simp
  · have h1 : (intToString n == intToString v) = false :=
      beq_eq_false_iff_ne.mpr fun he => hv (intToString_inj he).symm
    have h2 : (intToString n == str "*") = false :=
      beq_eq_false_iff_ne.mpr (intToString_ne_star n)
    simp [h1, h2, hv]

theorem isItTime_slash (left s : GoStr) (M v : Int)
    (hl : containsRune left '/' = false) (hs : containsRune s '/' = false)
    (hM : atoi s = some M) :
    isItTime (left ++ '/' :: s) v =
      if M = 0 then none else some (Int.tmod v M == 0) := by
  rw [isItTime]
  have hc : containsRune (left ++ '/' :: s) '/' = true := by
    rw [containsRune_append]
    simp [containsRune]
  rw [if_pos hc, splitOnChar_append s hl, splitOnChar_of_not_contains hs]
  simp [hM]

theorem isItTime_dash (sa sb : GoStr) (a b v : Int)
    (ha : atoi sa = some a) (hb : atoi sb = some b)
    (h1 : containsRune sa '/' = false) (h2 : containsRune sb '/' = false)
    (h3 : containsRune sa '-' = false) (h4 : containsRune sb '-' = false) :
    isItTime (sa ++ '-' :: sb) v = some (decide (a ≤ v ∧ v ≤ b)) := by
  rw [isItTime]
  have hns : containsRune (sa ++ '-' :: sb) '/' = false := by
    rw [containsRune_append]
    simp [containsRune, h1, h2]
  have hcd : containsRune (sa ++ '-' :: sb) '-' = true := by
    rw [containsRune_append]
    simp [containsRune]
  rw [if_neg (by simp [hns]), if_pos hcd]
  rw [splitOnChar_append sb h3, splitOnChar_of_not_contains h4]
  simp [ha, hb, Bool.decide_and, ge_iff_le]

theorem listMatch_iff (parts : List GoStr) (v : Int)
    (h : ∀ p ∈ parts, (atoi p).isSome = true) :
    listMatch parts v = true ↔ ∃ p ∈ parts, atoi p = some v := by
  induction parts with
  | nil => simp [listMatch]
  | cons p rest ih =>
    obtain ⟨n, hn⟩ := Option.isSome_iff_exists.mp (h p (List.mem_cons_self p rest))
    rw [listMatch, hn]
    simp only [Option.getD_some]
    by_cases hv : n = v
    · subst hv
      simp only [beq_self_eq_true, if_true, true_iff]
      exact ⟨p, List.mem_cons_self p rest, hn⟩
    · rw [if_neg (by simp [hv])]
      rw [ih fun q hq => h q (List.mem_cons_of_mem p hq)]
      constructor
      · rintro ⟨q, hq, hqv⟩
        exact ⟨q, List.mem_cons_of_mem p hq, hqv⟩
      · rintro ⟨q, hq, hqv⟩
        rcases List.mem_cons.mp hq with rfl | hq2
        · rw [hn] at hqv
          exact absurd (Option.some_inj.mp hqv) hv
        · exact ⟨q, hq2, hqv⟩

theorem joinComma_not_contains (parts : List GoStr) (c : Char) (hc : c ≠ ',')
    (h : ∀ p ∈ parts, containsRune p c = false) :
    containsRune (joinComma parts) c = false := by
  match parts with
  | [] => rfl
  | [p] => exact h p (List.mem_singleton.mpr rfl)
  | p :: q :: rest =>
    rw [joinComma, containsRune_append]
    have hp := h p (List.mem_cons_self p (q :: rest))
    have hrec := joinComma_not_contains (q :: rest) c hc
      (fun x hx => h x (List.mem_cons_of_mem p hx))
    simp only [hp, containsRune, hrec, Bool.or_false, Bool.false_or]
    exact beq_eq_false_iff_ne.mpr fun he => hc he.symm

theorem joinComma_contains_comma (p q : GoStr) (rest : List GoStr) :
    containsRune (joinComma (p :: q :: rest)) ',' = true := by
  rw [joinComma, containsRune_append]
  simp [containsRune]

theorem splitOnChar_joinComma (parts : List GoStr)
    (hne : parts ≠ []) (h : ∀ p ∈ parts, containsRune p ',' = false) :
    splitOnChar ',' (joinComma parts) = parts := by
  match parts with
  | [] => exact absurd rfl hne
  | [p] =>
    rw [joinComma]
    exact splitOnChar_of_not_contains (h p (List.mem_singleton.mpr rfl))
  | p :: q :: rest =>
    rw [joinComma, splitOnChar_append _ (h p (List.mem_cons_self p (q :: rest)))]
    rw [splitOnChar_joinComma (q :: rest) (by simp)
      (fun x hx => h x (List.mem_cons_of_mem p hx))]

theorem isItTime_comma (parts : List GoStr) (v : Int)
    (hlen : 2 ≤ parts.length)
    (h : ∀ p ∈ parts, containsRune p '/' = false ∧ containsRune p '-' = false ∧
      containsRune p ',' = false) :
    isItTime (joinComma parts) v = some (listMatch parts v) := by
  match parts with
  | [] => simp at hlen
  | [p] => simp at hlen
  | p :: q :: rest =>
    rw [isItTime]
    have hns : containsRune (joinComma (p :: q :: rest)) '/' = false :=
      joinComma_not_contains _ '/' (by decide) (fun x hx => (h x hx).1)
    have hnd : containsRune (joinComma (p :: q :: rest)) '-' = false :=
      joinComma_not_contains _ '-' (by decide) (fun x hx => (h x hx).2.1)
    rw [if_neg (by simp [hns]), if_neg (by simp [hnd]),
      if_pos (joinComma_contains_comma p q rest)]
    rw [splitOnChar_joinComma (p :: q :: rest) (by simp) (fun x hx => (h x hx).2.2)]

/-! Claim theorems. -/

/-- C1: for every compiled 5-field pattern and every instant,
`patternDoesMatch` computes the five per-field booleans with `isItTime`; if
both the day-of-month and day-of-week fields differ from the wildcard `"*"`
the date match is the disjunction of the two day matches, otherwise it is
their conjunction; and the overall result is
`minuteMatch && hourMatch && monthMatch && dateMatch`. -/
theorem patternDoesMatch_combines_fields
    (mi hr dm mo dw : GoStr) (clock : GoTime) (b1 b2 b3 b4 b5 : Bool)
    (h1 : isItTime mi clock.minute = some b1)
    (h2 : isItTime hr clock.hour = some b2)
    (h3 : isItTime dm clock.day = some b3)
    (h4 : isItTime mo clock.month = some b4)
    (h5 : isItTime dw clock.weekday = some b5) :
    patternDoesMatch [mi, hr, dm, mo, dw] clock =
      some (b1 && b2 && b4 &&
        (if dm ≠ str "*" ∧ dw ≠ str "*" then b3 || b5 else b3 && b5)) := by
  rw [patternDoesMatch]
  simp only [List.getElem?_cons_zero, List.getElem?_cons_succ, Option.bind_eq_bind,
    Option.some_bind, h1, h2, h3, h4, h5, Option.pure_def]
  by_cases hdm : dm = str "*" <;> by_cases hdw : dw = str "*" <;>
    simp [hdm, hdw]

/-- Witness for C1 at a concrete pattern and instant. -/
theorem patternDoesMatch_combines_fields_witness :
    patternDoesMatch [str "0", str "9-17", str "13", str "*", str "5"]
      { minute := 0, hour := 12, day := 13, month := 1, weekday := 5 } = some true := by
  rw [patternDoesMatch_combines_fields (str "0") (str "9-17") (str "13") (str "*") (str "5")
    { minute := 0, hour := 12, day := 13, month := 1, weekday := 5 }
    true true true true true (by decide) (by decide) (by decide) (by decide) (by decide)]
  decide

/-- C2 counterexample: the field string "05" passes minute validation as an
exact field whose parsed value is 5, and the value 5 is inside the minute
domain, yet the field does not match minute 5 — `isItTime` compares the
field text against the canonical decimal rendering of the current value,
and "05" is not canonical. -/
theorem exact_field_noncanonical_counterexample :
    validateComponent (str "05") 0 = none
    ∧ atoi (str "05") = some 5
    ∧ isItTime (str "05") 5 = some false := by decide

/-- C2 amended: per-field match semantics of `isItTime` on validated field
shapes: the wildcard matches everything; an exact field written as the
canonical decimal numeral of `n` matches exactly the value `n` (while a
non-canonical numeral such as "05" never matches, see the counterexample);
a step field matches the multiples of its right-hand divisor, the left-hand
side of the slash being ignored, except that a zero divisor — which
validation accepts — faults at match time; a range field matches the closed
interval of its two bounds; and a list field matches exactly the parsed
members. -/
theorem isItTime_field_semantics :
    (∀ v : Int, isItTime (str "*") v = some true)
    ∧ (∀ n v : Int, 0 ≤ n → isItTime (intToString n) v = some (decide (v = n)))
    ∧ (∀ left s : GoStr, ∀ M v : Int,
        containsRune left '/' = false → containsRune s '/' = false →
        atoi s = some M →
        isItTime (left ++ '/' :: s) v =
          if M = 0 then none else some (Int.tmod v M == 0))
    ∧ (∀ sa sb : GoStr, ∀ a b v : Int,
        atoi sa = some a → atoi sb = some b →
        containsRune sa '/' = false → containsRune sb '/' = false →
        containsRune sa '-' = false → containsRune sb '-' = false →
        isItTime (sa ++ '-' :: sb) v = some (decide (a ≤ v ∧ v ≤ b)))
    ∧ (∀ parts : List GoStr, ∀ v : Int, 2 ≤ parts.length →
        (∀ p ∈ parts, containsRune p '/' = false ∧ containsRune p '-' = false ∧
          containsRune p ',' = false ∧ (atoi p).isSome = true) →
        isItTime (joinComma parts) v = some (listMatch parts v)
          ∧ (listMatch parts v = true ↔ ∃ p ∈ parts, atoi p = some v)) :=
  ⟨isItTime_star,
   fun _ v hn => isItTime_exact hn v,
   fun left s M v hl hs hM => isItTime_slash left s M v hl hs hM,
   fun sa sb a b v ha hb hc1 hc2 hc3 hc4 => isItTime_dash sa sb a b v ha hb hc1 hc2 hc3 hc4,
   fun parts v hlen h =>
     ⟨isItTime_comma parts v hlen (fun p hp => ⟨(h p hp).1, (h p hp).2.1, (h p hp).2.2.1⟩),
      listMatch_iff parts v (fun p hp => (h p hp).2.2.2)⟩⟩

/-- Witness for C2 at concrete fields and values: exact, step, range and
list instances of the amended semantics. -/
theorem isItTime_field_semantics_witness :
    isItTime (intToString 5) 5 = some (decide ((5 : Int) = 5))
    ∧ isItTime (str "*" ++ '/' :: str "4") 8
        = (if (4 : Int) = 0 then none else some (Int.tmod 8 4 == 0))
    ∧ isItTime (str "9" ++ '-' :: str "17") 12 = some (decide ((9 : Int) ≤ 12 ∧ (12 : Int) ≤ 17))
    ∧ isItTime (joinComma [str "3", str "5"]) 5 = some (listMatch [str "3", str "5"] 5) :=
  ⟨isItTime_field_semantics.2.1 5 5 (by decide),
   isItTime_field_semantics.2.2.1 (str "*") (str "4") 4 8 (by decide) (by decide) (by decide),
   isItTime_field_semantics.2.2.2.1 (str "9") (str "17") 9 17 12
     (by decide) (by decide) (by decide) (by decide) (by decide) (by decide),
   (isItTime_field_semantics.2.2.2.2 [str "3", str "5"] 5 (by decide) (by decide)).1⟩

/-- The validation loop of `New` succeeds exactly when every job's pattern
validates. -/
theorem firstValidationError_eq_none_iff (jobs : List Job) :
    firstValidationError jobs = none ↔ ∀ j ∈ jobs, Validate j.Pattern = none := by
  induction jobs with
  | nil => simp [firstValidationError]
  | cons j rest ih =>
    rw [firstValidationError]
    cases hv : Validate j.Pattern with
    | some e =>
      simp only [List.mem_cons]
      constructor
      · intro h; cases h
      · intro h
        have := h j (Or.inl rfl)
        rw [hv] at this
        cases this
    | none =>
      rw [ih]
      constructor
      · intro h k hk
        rcases List.mem_cons.mp hk with rfl | hk2
        · exact hv
        · exact h k hk2
      · intro h k hk
        exact h k (List.mem_cons_of_mem j hk)

/-- The validation loop of `New` surfaces the error of the first offending
job. -/
theorem firstValidationError_append (pre : List Job) (j : Job) (post : List Job) (e : VErr)
    (hpre : ∀ k ∈ pre, Validate k.Pattern = none) (hj : Validate j.Pattern = some e) :
    firstValidationError (pre ++ j :: post) = some e := by
  induction pre with
  | nil =>
    rw [List.nil_append, firstValidationError, hj]
  | cons k rest ih =>
    rw [List.cons_append, firstValidationError]
    rw [hpre k (List.mem_cons_self k rest)]
    exact ih fun x hx => hpre x (List.mem_cons_of_mem k hx)

/-- C3: `New` returns a scheduler exactly when every job's pattern passes
`Validate`; the scheduler carries exactly the supplied job list (with the
default interval and no expiry); and when some pattern is invalid, `New`
returns no scheduler together with the validation error of the first
offending pattern. -/
theorem New_registration_spec (jobs : List Job) :
    ((∃ tab, New jobs = Except.ok tab) ↔ ∀ j ∈ jobs, Validate j.Pattern = none)
    ∧ (∀ tab, New jobs = Except.ok tab →
        tab = { Jobs := jobs, ExpireAfter := none, Interval := 60 })
    ∧ (∀ pre post : List Job, ∀ j : Job, ∀ e : VErr,
        jobs = pre ++ j :: post → (∀ k ∈ pre, Validate k.Pattern = none) →
        Validate j.Pattern = some e → New jobs = Except.error e) := by
  refine ⟨?_, ?_, ?_⟩
  · rw [← firstValidationError_eq_none_iff]
    constructor
    · rintro ⟨tab, htab⟩
      rw [New] at htab
      cases hf : firstValidationError jobs with
      | none => rfl
      | some e =>
        rw [hf] at htab
        cases htab
    · intro h
      refine ⟨{ Jobs := jobs, ExpireAfter := none, Interval := 60 }, ?_⟩
      rw [New, h]
  · intro tab htab
    rw [New] at htab
    cases hf : firstValidationError jobs with
    | some e =>
      rw [hf] at htab
      cases htab
    | none =>
      rw [hf] at htab
      exact (Except.ok.inj htab).symm
  · intro pre post j e hjobs hpre hj
    rw [New, hjobs, firstValidationError_append pre j post e hpre hj]

/-- Witness for C3: a list whose second job has a malformed pattern makes
`New` return the field-count error of that first offending pattern. -/
theorem New_registration_spec_witness :
    New [jobStar, jobBad] = Except.error VErr.count :=
  (New_registration_spec [jobStar, jobBad]).2.2 [jobStar] [] jobBad VErr.count rfl
    (by decide) (by decide)

/-- C4 (the code side of the divide-by-zero claim): the pattern
`"*/0 * * * *"` passes `Validate` — the step divisor `0` is inside the
minute domain — yet `isItTime` on the step branch then computes
`currentValue % 0`, a Go runtime panic (`none` in the embedding), so
`patternDoesMatch` on the validated compiled pattern is not total. -/
theorem step_divisor_zero_validates_then_panics :
    Validate (str "*/0 * * * *") = none
    ∧ isItTime (str "*/0") 0 = none
    ∧ patternDoesMatch (getRealPattern (str "*/0 * * * *"))
        { minute := 0, hour := 0, day := 1, month := 1, weekday := 0 } = none := by
  decide

/-- C6 (the code side of the compiled-pattern claim): `New` validates the
job but assigns the compiled pattern to the range-loop copy, so the `Tab`
it returns stores the job with its `pattern` field still `nil`, and
`WouldRunNow` falls into the `nil` branch and recompiles the pattern text
with `getRealPattern` at every evaluation. -/
theorem new_does_not_store_compiled_pattern :
    New [jobJan] = Except.ok { Jobs := [jobJan], ExpireAfter := none, Interval := 60 }
    ∧ jobJan.compiled = none
    ∧ WouldRunNow jobJan { minute := 0, hour := 0, day := 1, month := 1, weekday := 5 }
        = patternDoesMatch (getRealPattern jobJan.Pattern)
            { minute := 0, hour := 0, day := 1, month := 1, weekday := 5 }
    ∧ patternDoesMatch (getRealPattern jobJan.Pattern)
        { minute := 0, hour := 0, day := 1, month := 1, weekday := 5 } = some true :=
  ⟨rfl, rfl, rfl, by decide⟩

/-- C5: the per-unit domain checks accept minute 0..60 and hour 0..24 (one
past the true calendar maxima), day-of-month 1..31, month 1..12 and weekday
0..6; and a value outside its unit's domain is rejected wherever it
appears — as an exact value, as a step divisor, as a range bound, or as a
list member. -/
theorem validator_domain_bounds :
    (∀ v : Int, validateMinute v = true ↔ 0 ≤ v ∧ v ≤ 60)
    ∧ (∀ v : Int, validateHour v = true ↔ 0 ≤ v ∧ v ≤ 24)
    ∧ (∀ v : Int, validateDayOfMonth v = true ↔ 1 ≤ v ∧ v ≤ 31)
    ∧ (∀ v : Int, validateMonth v = true ↔ 1 ≤ v ∧ v ≤ 12)
    ∧ (∀ v : Int, validateDayOfWeek v = true ↔ 0 ≤ v ∧ v ≤ 6)
    ∧ (∀ i : Nat, ∀ v : Int, i < 5 → 0 ≤ v → validateDateComponent v i = false →
        (validateComponent (intToString v) i).isSome = true
        ∧ (validateComponent (str "*" ++ '/' :: intToString v) i).isSome = true
        ∧ (∀ a : Int, 0 ≤ a → a < v →
            (validateComponent (intToString a ++ '-' :: intToString v) i).isSome = true)
        ∧ (∀ a : Int, 0 ≤ a →
            (validateComponent (intToString a ++ ',' :: intToString v) i).isSome = true)) := by
  refine ⟨?_, ?_, ?_, ?_, ?_, ?_⟩
  · intro v; simp [validateMinute, ge_iff_le]
  · intro v; simp [validateHour, ge_iff_le]
  · intro v; simp [validateDayOfMonth, ge_iff_le]
  · intro v; simp [validateMonth, ge_iff_le]
  · intro v; simp [validateDayOfWeek, ge_iff_le]
  intro i v _ hv0 hdom
  refine ⟨?_, ?_, ?_, ?_⟩
  · -- exact value
    have hab : alphabeticalMatch (intToString v) = false := by
      rw [intToString_of_nonneg hv0]
      exact alphabeticalMatch_natToString _
    rw [validateComponent, if_neg (intToString_ne_star v)]
    simp only [intToString_not_contains hv0 '/' (by simp),
      intToString_not_contains hv0 '-' (by simp),
      intToString_not_contains hv0 ',' (by simp), hab,
      Bool.false_eq_true, if_false]
    rw [atoi_intToString]
    simp [hdom]
  · -- step divisor
    have hc : containsRune (str "*" ++ '/' :: intToString v) '/' = true := by
      rw [containsRune_append]
      simp [containsRune]
    have hnstar : ¬ str "*" ++ '/' :: intToString v = str "*" := by
      intro heq
      have h2 := hc
      rw [heq] at h2
      exact absurd h2 (by decide)
    rw [validateComponent, if_neg hnstar, if_pos hc, validateExpression]
    rw [splitOnChar_append (intToString v) (by decide)]
    rw [splitOnChar_of_not_contains (intToString_not_contains hv0 '/' (by simp))]
    simp only [List.length_cons, List.length_singleton, List.getD]
    rw [if_neg (by norm_num)]
    have hget : (([str "*", intToString v].get? 1).getD ([] : GoStr)) = intToString v := rfl
    rw [hget, atoi_intToString]
    simp [hdom]
  · -- range bound
    intro a ha0 hav
    have hsa1 : containsRune (intToString a) '/' = false :=
      intToString_not_contains ha0 '/' (by simp)
    have hsv1 : containsRune (intToString v) '/' = false :=
      intToString_not_contains hv0 '/' (by simp)
    have hsa2 : containsRune (intToString a) '-' = false :=
      intToString_not_contains ha0 '-' (by simp)
    have hsv2 : containsRune (intToString v) '-' = false :=
      intToString_not_contains hv0 '-' (by simp)
    have hcd : containsRune (intToString a ++ '-' :: intToString v) '-' = true := by
      rw [containsRune_append]
      simp [containsRune]
    have hns : containsRune (intToString a ++ '-' :: intToString v) '/' = false := by
      rw [containsRune_append]
      simp [containsRune, hsa1, hsv1]
    have hnstar : ¬ intToString a ++ '-' :: intToString v = str "*" := by
      intro heq
      have h2 := hcd
      rw [heq] at h2
      exact absurd h2 (by decide)
    rw [validateComponent, if_neg hnstar, if_neg (by simp [hns]), if_pos hcd, validateRange]
    rw [splitOnChar_append (intToString v) hsa2, splitOnChar_of_not_contains hsv2]
    simp only [List.length_cons, List.length_singleton, List.getD]
    rw [if_neg (by norm_num)]
    have hget0 : (([intToString a, intToString v].get? 0).getD ([] : GoStr)) = intToString a := rfl
    have hget1 : (([intToString a, intToString v].get? 1).getD ([] : GoStr)) = intToString v := rfl
    rw [hget0, hget1, atoi_intToString, atoi_intToString]
    have hlt : (a > v || a == v) = false := by
      simp only [Bool.or_eq_false_iff, decide_eq_false_iff_not, beq_eq_false_iff_ne]
      constructor
      · omega
      · omega
    simp [hlt, hdom]
  · -- list member
    intro a ha0
    have hsa1 : containsRune (intToString a) '/' = false :=
      intToString_not_contains ha0 '/' (by simp)
    have hsv1 : containsRune (intToString v) '/' = false :=
      intToString_not_contains hv0 '/' (by simp)
    have hsa2 : containsRune (intToString a) '-' = false :=
      intToString_not_contains ha0 '-' (by simp)
    have hsv2 : containsRune (intToString v) '-' = false :=
      intToString_not_contains hv0 '-' (by simp)
    have hsa3 : containsRune (intToString a) ',' = false :=
      intToString_not_contains ha0 ',' (by simp)
    have hsv3 : containsRune (intToString v) ',' = false :=
      intToString_not_contains hv0 ',' (by simp)
    have hcc : containsRune (intToString a ++ ',' :: intToString v) ',' = true := by
      rw [containsRune_append]
      simp [containsRune]
    have hns : containsRune (intToString a ++ ',' :: intToString v) '/' = false := by
      rw [containsRune_append]
      simp [containsRune, hsa1, hsv1]
    have hnd : containsRune (intToString a ++ ',' :: intToString v) '-' = false := by
      rw [containsRune_append]
      simp [containsRune, hsa2, hsv2]
    have hnstar : ¬ intToString a ++ ',' :: intToString v = str "*" := by
      intro heq
      have h2 := hcc
      rw [heq] at h2
      exact absurd h2 (by decide)
    rw [validateComponent, if_neg hnstar, if_neg (by simp [hns]), if_neg (by simp [hnd]),
      if_pos hcc, validateList]
    rw [splitOnChar_append (intToString v) hsa3, splitOnChar_of_not_contains hsv3]
    rw [validateListParts, atoi_intToString]
    by_cases hda : validateDateComponent a i
    · simp only [hda, Bool.not_true, Bool.false_eq_true, if_false]
      rw [validateListParts, atoi_intToString]
      simp [hdom]
    · simp [hda]

/-- Witness for C5: hour 25 rejected as an exact value, minute 61 rejected
as a step divisor, weekday 7 rejected as a range bound and as a list
member. -/
theorem validator_domain_bounds_witness :
    (validateComponent (intToString 25) 1).isSome = true
    ∧ (validateComponent (str "*" ++ '/' :: intToString 61) 0).isSome = true
    ∧ (validateComponent (intToString 1 ++ '-' :: intToString 7) 4).isSome = true
    ∧ (validateComponent (intToString 1 ++ ',' :: intToString 7) 4).isSome = true :=
  ⟨(validator_domain_bounds.2.2.2.2.2 1 25 (by decide) (by decide) (by decide)).1,
   (validator_domain_bounds.2.2.2.2.2 0 61 (by decide) (by decide) (by decide)).2.1,
   (validator_domain_bounds.2.2.2.2.2 4 7 (by decide) (by decide) (by decide)).2.2.1
     1 (by decide) (by decide),
   (validator_domain_bounds.2.2.2.2.2 4 7 (by decide) (by decide) (by decide)).2.2.2
     1 (by decide)⟩

/-- C8: a component containing a dash (and no slash, so that the validator
routes it to the range branch) is accepted exactly when it splits on the
dash into exactly two parts, both parts parse as integers, the left bound
is strictly below the right bound (equal and reversed bounds are both
errors), and both bounds are inside the field's domain. -/
theorem range_field_accepted_iff (c : GoStr) (i : Nat)
    (hslash : containsRune c '/' = false) (hdash : containsRune c '-' = true) :
    validateComponent c i = none ↔
      ((splitOnChar '-' c).length = 2
        ∧ ∃ a b : Int,
            atoi ((splitOnChar '-' c).getD 0 []) = some a
            ∧ atoi ((splitOnChar '-' c).getD 1 []) = some b
            ∧ a < b
            ∧ validateDateComponent a i = true ∧ validateDateComponent b i = true) := by
  have hnstar : ¬ c = str "*" := by
    intro heq
    rw [heq] at hdash
    exact absurd hdash (by decide)
  rw [validateComponent, if_neg hnstar, if_neg (by simp [hslash]), if_pos hdash, validateRange]
  have hlen2 : 2 ≤ (splitOnChar '-' c).length := splitOnChar_length_ge_two hdash
  by_cases hgt : (splitOnChar '-' c).length > 2
  · rw [if_pos hgt]
    constructor
    · intro hcontr; cases hcontr
    · rintro ⟨hl, -⟩
      omega
  · rw [if_neg hgt]
    have hlen : (splitOnChar '-' c).length = 2 := by omega
    cases h0 : atoi ((splitOnChar '-' c).getD 0 []) with
    | none =>
      dsimp only
      constructor
      · intro hcontr; cases hcontr
      · rintro ⟨-, a2, b2, ha2, -⟩
        cases ha2
    | some a =>
      cases h1 : atoi ((splitOnChar '-' c).getD 1 []) with
      | none =>
        dsimp only
        constructor
        · intro hcontr; cases hcontr
        · rintro ⟨-, a2, b2, -, hb2, -⟩
          cases hb2
      | some b =>
        dsimp only
        by_cases hab : (a > b || a == b) = true
        · rw [if_pos hab]
          constructor
          · intro hcontr; cases hcontr
          · rintro ⟨-, a2, b2, ha2, hb2, hlt2, -, -⟩
            obtain rfl := Option.some_inj.mp ha2
            obtain rfl := Option.some_inj.mp hb2
            simp only [Bool.or_eq_true, decide_eq_true_eq, beq_iff_eq] at hab
            omega
        · rw [if_neg hab]
          simp only [Bool.or_eq_true, decide_eq_true_eq, beq_iff_eq, not_or] at hab
          by_cases hd : (!validateDateComponent a i || !validateDateComponent b i) = true
          · rw [if_pos hd]
            constructor
            · intro hcontr; cases hcontr
            · rintro ⟨-, a2, b2, ha2, hb2, -, hda2, hdb2⟩
              obtain rfl := Option.some_inj.mp ha2
              obtain rfl := Option.some_inj.mp hb2
              simp [hda2, hdb2] at hd
          · rw [if_neg hd]
            simp only [Bool.or_eq_true, Bool.not_eq_true', not_or,
              Bool.not_eq_false] at hd
            constructor
            · intro _
              exact ⟨hlen, a, b, rfl, rfl, by omega, hd.1, hd.2⟩
            · intro _
              rfl

/-- Witness for C8: the hour range "9-17" is accepted, with bounds 9 and
17 both parsing, ordered, and inside the hour domain. -/
theorem range_field_accepted_iff_witness :
    (splitOnChar '-' (str "9-17")).length = 2
    ∧ ∃ a b : Int,
        atoi ((splitOnChar '-' (str "9-17")).getD 0 []) = some a
        ∧ atoi ((splitOnChar '-' (str "9-17")).getD 1 []) = some b
        ∧ a < b
        ∧ validateDateComponent a 1 = true ∧ validateDateComponent b 1 = true :=
  (range_field_accepted_iff (str "9-17") 1 (by decide) (by decide)).mp (by decide)

/-- C7 counterexample: the pattern `"0 0 1 jan *"` with a lowercase month
name is not accepted by `Validate` — the name regexp `[A-Z]{3}` only
matches uppercase, so the field falls through to integer parsing and
fails. -/
theorem lowercase_name_not_accepted :
    ¬ Validate (str "0 0 1 jan *") = none := by decide

/-- C7 amended: `Validate` rejects the lowercase form (with the month
value-parse error), but `getRealPattern` upper-cases before name
substitution, so the lowercase pattern compiles to exactly the uppercase
pattern's field array and matches exactly the same instants. -/
theorem lowercase_name_rejected_but_compiles_identically :
    Validate (str "0 0 1 jan *") = some (VErr.valueParse "month")
    ∧ getRealPattern (str "0 0 1 jan *") = getRealPattern (str "0 0 1 JAN *")
    ∧ ∀ clock : GoTime,
        patternDoesMatch (getRealPattern (str "0 0 1 jan *")) clock
          = patternDoesMatch (getRealPattern (str "0 0 1 JAN *")) clock := by
  refine ⟨by decide, by decide, fun clock => ?_⟩
  have h : getRealPattern (str "0 0 1 jan *") = getRealPattern (str "0 0 1 JAN *") := by
    decide
  rw [h]

/-- C9: the wildcard pattern matches every instant: `WouldRunNow` returns
true through the literal `"* * * * *"` fast path, and `patternDoesMatch`
on the compiled all-wildcard field array also returns true. -/
theorem wildcard_pattern_always_matches (clock : GoTime) (name : String)
    (compiled : Option (List GoStr)) :
    WouldRunNow { Pattern := str "* * * * *", Name := name, compiled := compiled } clock
      = some true
    ∧ patternDoesMatch (getRealPattern (str "* * * * *")) clock = some true := by
  constructor
  · rw [WouldRunNow]
    simp
  · have hstar : getRealPattern (str "* * * * *")
        = [str "*", str "*", str "*", str "*", str "*"] := by
      rw [getRealPattern, if_pos rfl]
    rw [hstar, patternDoesMatch]
    simp [isItTime_star]

/-- C10: `StopSoon` sets `ExpireAfter` to the instant one year before the
current time and changes no other field; that instant is in the past, so
the expiry check at the top of every later `ForceStart` iteration holds and
the loop returns. -/
theorem stopSoon_frame_and_expiry (tab : Tab) (now : Int) :
    (StopSoon tab now).ExpireAfter = some (now - oneYearSeconds)
    ∧ (StopSoon tab now).Jobs = tab.Jobs
    ∧ (StopSoon tab now).Interval = tab.Interval
    ∧ now - oneYearSeconds < now
    ∧ (∀ later : Int, now ≤ later → forceStartExits (StopSoon tab now) later = true) := by
  refine ⟨rfl, rfl, rfl, by norm_num [oneYearSeconds], fun later hl => ?_⟩
  simp only [StopSoon, forceStartExits, oneYearSeconds]
  simp only [gt_iff_lt, decide_eq_true_eq]
  omega

/-- Witness for C10 at a concrete tab and instant. -/
theorem stopSoon_frame_and_expiry_witness :
    forceStartExits (StopSoon { Jobs := [], ExpireAfter := none, Interval := 60 } 0) 0
      = true :=
  (stopSoon_frame_and_expiry { Jobs := [], ExpireAfter := none, Interval := 60 } 0).2.2.2.2
    0 (by decide)

end Cron
